import Mathlib

/-!
Shallow embedding of `packages/features/ee/dsync/lib/getAttributesFromScimPayload.ts`.

The source is a single TypeScript function (plus an inner helper
`collectAttributes`) that extracts custom user attributes from a SCIM
directory-sync event payload.  The payload `event.data.raw` is dynamically
typed JSON-like data, so we model values with a `JsonValue` inductive and
translate the JavaScript semantics the function actually exercises:
truthiness, property access (which throws a `TypeError` on `null` /
`undefined` receivers), `Object.entries`, object rest-spread, and plain
object assignment.  Functions, symbols and prototype-chain lookups are out
of scope: the payload is JSON data, so only own properties of JSON values
are modelled.  Fallible evaluation (the JavaScript code can throw, e.g.
`raw.schemas.forEach` when `raw.schemas` is not an array) is modelled with
`Except String`.
-/

/-- A JavaScript/JSON value as far as the source file is concerned:
strings, numbers, booleans, `null`, `undefined`, arrays and plain objects.
Objects are insertion-ordered association lists; real JS objects have
unique keys, which every object constructed by the code here does. -/
inductive JsonValue where
  | str (s : String)
  | num (n : Int)
  | bool (b : Bool)
  | null
  | undefined
  | arr (elems : List JsonValue)
  | obj (fields : List (String × JsonValue))

/-- JavaScript truthiness, as used by `if (!value)` and
`if (scimUserAttributes[customAttributeName])` in the source.  Falsy
values: `null`, `undefined`, `false`, `0`, the empty string.  Arrays and
objects (even empty ones) are always truthy. -/
def truthy : JsonValue → Bool
  | .str s => s ≠ ""
  | .num n => n ≠ 0
  | .bool b => b
  | .null => false
  | .undefined => false
  | .arr _ => true
  | .obj _ => true

/-- The acceptance test of `collectAttributes` (source lines 149-152):
`typeof value === "string" || (value instanceof Array && value.every(item => typeof item === "string"))`. -/
def isValidValue : JsonValue → Bool
  | .str _ => true
  | .arr elems => elems.all fun item =>
      match item with
      | .str _ => true
      | _ => false
  | _ => false

/-- The running result object `scimUserAttributes`:
a JS `Record<string, string | string[]>`, modelled as an
insertion-ordered association list with unique keys. -/
abbrev AttributeMap := List (String × JsonValue)

/-- Reading `m[k]` on a plain JS object: the value stored at `k`,
or `undefined` when the key is absent. -/
def jsLookup (m : AttributeMap) (k : String) : JsonValue :=
  (m.lookup k).getD .undefined

/-- JS object assignment `m[k] = v`: overwrites an existing key in place
(keeping its position in insertion order) or appends a new key. -/
def setKey : AttributeMap → String → JsonValue → AttributeMap
  | [], k, v => [(k, v)]
  | p :: rest, k, v => if p.1 = k then (k, v) :: rest else p :: setKey rest k v

/-- JS property access `v[k]` on a JSON value.  Throws a `TypeError` when
the receiver is `null` or `undefined`; on objects it reads the own
property (or `undefined`); arrays expose their elements under canonical
numeric keys and `length`; strings expose their characters and `length`;
numbers and booleans have no own properties. -/
def getMember : JsonValue → String → Except String JsonValue
  | .null, _ => .error "TypeError: Cannot read properties of null"
  | .undefined, _ => .error "TypeError: Cannot read properties of undefined"
  | .obj fields, k => .ok ((fields.lookup k).getD .undefined)
  | .arr elems, k =>
      if k = "length" then .ok (.num elems.length)
      else
        match k.toNat? with
        | some i => .ok (if toString i = k then (elems.getD i .undefined) else .undefined)
        | none => .ok .undefined
  | .str s, k =>
      if k = "length" then .ok (.num s.length)
      else
        match k.toNat? with
        | some i =>
            .ok (if toString i = k then
                   (match s.toList.get? i with
                    | some c => JsonValue.str (String.mk [c])
                    | none => .undefined)
                 else .undefined)
        | none => .ok .undefined
  | .num _, _ => .ok .undefined
  | .bool _, _ => .ok .undefined

/-- Own enumerable entries of a value, `Object.entries(v)`.  Objects give
their fields, arrays index/element pairs, strings index/character pairs,
primitives nothing.  (`Object.entries` on `null`/`undefined` would throw,
but both call sites in the source guard against that: the core namespace
receiver is an object, and other namespace data passed a truthiness
check.) -/
def jsEntries : JsonValue → List (String × JsonValue)
  | .obj fields => fields
  | .arr elems => elems.enum.map fun p => (toString p.1, p.2)
  | .str s => s.toList.enum.map fun p => (toString p.1, JsonValue.str (String.mk [p.2]))
  | _ => []

/-- The rest-spread `const { schemas: _schemas, ...namespaceData } = raw`
(source line 93): every own enumerable entry of `raw` except `schemas`.
(At the call site `raw` is always an object, since `raw.schemas.forEach`
succeeded.) -/
def coreNamespaceData (raw : JsonValue) : List (String × JsonValue) :=
  (jsEntries raw).filter fun p => p.1 ≠ "schemas"

def coreSchemaUrn : String := "urn:ietf:params:scim:schemas:core:2.0:User"

/-- Source lines 13-35: core SCIM user fields that are never treated as
custom attributes. -/
def coreUserAttributesToIgnore : List String :=
  ["userName", "name", "displayName", "emails", "active", "externalId",
   "id", "groups", "meta", "locale", "password", "phoneNumbers", "photos",
   "profileUrl", "timezone", "title", "addresses", "entitlements", "ims",
   "roles", "x509Certificates"]

/-- Body of the `Object.entries(data).forEach` callback in
`collectAttributes` (source lines 129-155), acting on the accumulated
`scimUserAttributes` map: skip ignored names, skip falsy values, skip
names whose stored value is truthy (the duplicate check is a truthiness
test on the lookup), then record the value if it is a string or an array
of strings. -/
def collectStep (ignoreList : List String) (acc : AttributeMap)
    (entry : String × JsonValue) : AttributeMap :=
  if ignoreList.contains entry.1 then acc
  else if !truthy entry.2 then acc
  else if truthy (jsLookup acc entry.1) then acc
  else if isValidValue entry.2 then setKey acc entry.1 entry.2
  else acc

/-- The inner helper `collectAttributes` (source lines 122-156), with the
mutated `scimUserAttributes` made an explicit accumulator. -/
def collectAttributes (data : List (String × JsonValue))
    (ignoreList : List String) (acc : AttributeMap) : AttributeMap :=
  data.foldl (collectStep ignoreList) acc

/-- The namespace sub-object access `raw[namespaceName]` (source line 106).
At its call site `raw` is always an object (its `schemas` member access
succeeded and produced an array), so the property read cannot throw; the
`Except` layer of `getMember` is collapsed accordingly. -/
def namespaceLookup (raw : JsonValue) (name : String) : JsonValue :=
  ((getMember raw name).toOption).getD .undefined

/-- Body of the `raw.schemas.forEach` callback (source lines 90-113):
the core schema URN collects the root-level fields under the core ignore
list; a non-string namespace name is logged and skipped; a falsy namespace
sub-object is logged and skipped; otherwise the sub-object is collected
with an empty ignore list.  (The source tests `schema === coreSchemaUrn`
first; since `coreSchemaUrn` is a string, only string schemas can match
it, so matching on string-ness first is equivalent.  Property access
`raw[namespaceName]` cannot throw here because `raw` is an object.) -/
def processSchema (raw : JsonValue) (acc : AttributeMap) (schema : JsonValue) :
    AttributeMap :=
  match schema with
  | .str namespaceName =>
      if namespaceName = coreSchemaUrn then
        collectAttributes (coreNamespaceData raw) coreUserAttributesToIgnore acc
      else
        let namespaceData := namespaceLookup raw namespaceName
        if !truthy namespaceData then acc
        else collectAttributes (jsEntries namespaceData) [] acc
  | _ => acc

/-- The `event` argument: `{ event: string, data: { raw: <dynamic> } }`.
Only `event.event` (the kind) and `event.data.raw` influence the result. -/
structure DirectorySyncEvent where
  event : String
  rawData : JsonValue

/-- `getAttributesFromScimPayload` (source lines 75-157).  Unsupported
event kinds return the empty map at once.  Otherwise
`raw.schemas.forEach(...)` runs: the member access throws on a
`null`/`undefined` receiver, and calling `forEach` on a non-array value
throws a `TypeError`; both surface as `Except.error`.  The `directoryId`
argument only selects diagnostic console logging in the source and never
affects the returned map. -/
def getAttributesFromScimPayload (event : DirectorySyncEvent)
    (directoryId : String) : Except String AttributeMap :=
  if event.event ≠ "user.created" ∧ event.event ≠ "user.updated" then
    .ok []
  else
    match getMember event.rawData "schemas" with
    | .error e => .error e
    | .ok (.arr schemas) => .ok (schemas.foldl (processSchema event.rawData) [])
    | .ok _ => .error "TypeError: raw.schemas.forEach is not a function"

/-- A value of the output type `string | string[]` that the `TypeScript`
record can actually hold after the checks of `collectAttributes`: a
nonempty string (the empty string is falsy and filtered out) or an array
of strings. -/
def goodValue (v : JsonValue) : Prop :=
  (∃ s, v = JsonValue.str s ∧ s ≠ "") ∨
  (∃ elems, v = JsonValue.arr elems ∧ ∀ x ∈ elems, ∃ s, x = JsonValue.str s)

/-- Every value stored in the map is a `goodValue`. -/
def storedGood (m : AttributeMap) : Prop := ∀ p ∈ m, goodValue p.2

/-- The value shapes the spec says are dropped by the type filter: numbers,
booleans, plain objects, and arrays containing a non-string element. -/
def badShape (v : JsonValue) : Prop :=
  (∃ n, v = JsonValue.num n) ∨ (∃ b, v = JsonValue.bool b) ∨
  (∃ fields, v = JsonValue.obj fields) ∨
  (∃ elems x, v = JsonValue.arr elems ∧ x ∈ elems ∧ ∀ s, x ≠ JsonValue.str s)

theorem setKey_lookup_ne (m : AttributeMap) (n : String) (v : JsonValue)
    (k : String) (hk : k ≠ n) : (setKey m n v).lookup k = m.lookup k := by
  induction m with
  | nil => simp [setKey, List.lookup, beq_eq_false_iff_ne.mpr hk]
  | cons p rest ih =>
      by_cases hp : p.1 = n
      · simp only [setKey, if_pos hp]
        simp [List.lookup, beq_eq_false_iff_ne.mpr hk, hp ▸ (beq_eq_false_iff_ne.mpr hk)]
      · simp only [setKey, if_neg hp]
        by_cases hkp : k = p.1
        · simp [List.lookup, hkp]
        · simp [List.lookup, beq_eq_false_iff_ne.mpr hkp, ih]

theorem setKey_lookup_self (m : AttributeMap) (k : String) (v : JsonValue) :
    (setKey m k v).lookup k = some v := by
  induction m with
  | nil => simp [setKey, List.lookup]
  | cons p rest ih =>
      by_cases hp : p.1 = k
      · simp [setKey, hp, List.lookup]
      · simp [setKey, hp, List.lookup, beq_eq_false_iff_ne.mpr (Ne.symm hp), ih]

theorem mem_setKey (m : AttributeMap) (k : String) (v : JsonValue)
    (p : String × JsonValue) (hp : p ∈ setKey m k v) : p ∈ m ∨ p = (k, v) := by
  induction m with
  | nil => simp [setKey] at hp; simp [hp]
  | cons q rest ih =>
      by_cases hq : q.1 = k
      · simp only [setKey, if_pos hq] at hp
        rcases List.mem_cons.mp hp with h | h
        · exact Or.inr h
        · exact Or.inl (List.mem_cons_of_mem _ h)
      · simp only [setKey, if_neg hq] at hp
        rcases List.mem_cons.mp hp with h | h
        · exact Or.inl (h ▸ List.mem_cons_self _ _)
        · rcases ih h with h2 | h2
          · exact Or.inl (List.mem_cons_of_mem _ h2)
          · exact Or.inr h2

theorem lookup_mem (m : AttributeMap) (k : String) (v : JsonValue)
    (h : m.lookup k = some v) : (k, v) ∈ m := by
  induction m with
  | nil => simp [List.lookup] at h
  | cons p rest ih =>
      by_cases hp : k = p.1
      · simp [List.lookup, hp] at h
        subst hp
        cases p with
        | mk a b => simp at h ⊢; left; exact h.symm ▸ rfl
      · simp [List.lookup, beq_eq_false_iff_ne.mpr hp] at h
        exact List.mem_cons_of_mem _ (ih h)

theorem goodValue_of_truthy_valid (v : JsonValue) (ht : truthy v = true)
    (hv : isValidValue v = true) : goodValue v := by
  cases v with
  | str s => exact Or.inl ⟨s, rfl, by simpa [truthy] using ht⟩
  | arr elems =>
      refine Or.inr ⟨elems, rfl, ?_⟩
      intro x hx
      have hall := (List.all_eq_true.mp (by simpa [isValidValue] using hv)) x hx
      cases x <;> simp_all
  | num n => simp [isValidValue] at hv
  | bool b => simp [isValidValue] at hv
  | null => simp [isValidValue] at hv
  | undefined => simp [isValidValue] at hv
  | obj fields => simp [isValidValue] at hv

theorem truthy_of_good (v : JsonValue) (h : goodValue v) : truthy v = true := by
  rcases h with ⟨s, rfl, hs⟩ | ⟨elems, rfl, _⟩
  · simpa [truthy] using hs
  · rfl

theorem collectStep_cases (L : List String) (acc : AttributeMap) (e : String × JsonValue) :
    collectStep L acc e = acc ∨
    (collectStep L acc e = setKey acc e.1 e.2 ∧ truthy e.2 = true ∧
     isValidValue e.2 = true ∧ truthy (jsLookup acc e.1) = false) := by
  by_cases h1 : e.1 ∈ L
  · left; simp [collectStep, h1]
  · by_cases h2 : truthy e.2 = true
    · by_cases h3 : truthy (jsLookup acc e.1) = true
      · left; simp [collectStep, h1, h2, h3]
      · by_cases h4 : isValidValue e.2 = true
        · right
          refine ⟨by simp [collectStep, h1, h2, h3, h4], h2, h4, by simpa using h3⟩
        · left; simp [collectStep, h1, h2, h3, h4]
    · left; simp [collectStep, h1, h2]

theorem collectStep_storedGood (L : List String) (acc : AttributeMap)
    (e : String × JsonValue) (h : storedGood acc) : storedGood (collectStep L acc e) := by
  rcases collectStep_cases L acc e with hc | ⟨hc, ht, hv, _⟩
  · rw [hc]; exact h
  · rw [hc]; intro p hp
    rcases mem_setKey _ _ _ _ hp with hm | hm
    · exact h p hm
    · rw [hm]; exact goodValue_of_truthy_valid _ ht hv

theorem collectStep_lookup_keep (L : List String) (acc : AttributeMap)
    (e : String × JsonValue) (k : String) (v : JsonValue) (hg : storedGood acc)
    (hk : acc.lookup k = some v) : (collectStep L acc e).lookup k = some v := by
  rcases collectStep_cases L acc e with hc | ⟨hc, _, _, hdup⟩
  · rw [hc, hk]
  · rw [hc]
    by_cases he : k = e.1
    · exfalso
      have hv : jsLookup acc e.1 = v := by simp [jsLookup, ← he, hk]
      have hgv : goodValue v := hg _ (lookup_mem _ _ _ hk)
      rw [hv] at hdup
      exact absurd (truthy_of_good v hgv) (by simp [hdup])
    · rw [setKey_lookup_ne _ _ _ _ he, hk]

theorem collectAttributes_storedGood (data : List (String × JsonValue))
    (L : List String) (acc : AttributeMap) (h : storedGood acc) :
    storedGood (collectAttributes data L acc) := by
  induction data generalizing acc with
  | nil => exact h
  | cons e rest ih => exact ih _ (collectStep_storedGood L acc e h)

theorem collectAttributes_lookup_keep (data : List (String × JsonValue))
    (L : List String) (acc : AttributeMap) (k : String) (v : JsonValue)
    (hg : storedGood acc) (hk : acc.lookup k = some v) :
    (collectAttributes data L acc).lookup k = some v := by
  induction data generalizing acc with
  | nil => exact hk
  | cons e rest ih =>
      exact ih _ (collectStep_storedGood L acc e hg)
        (collectStep_lookup_keep L acc e k v hg hk)

theorem processSchema_storedGood (raw : JsonValue) (acc : AttributeMap)
    (s : JsonValue) (h : storedGood acc) : storedGood (processSchema raw acc s) := by
  unfold processSchema
  cases s <;> try exact h
  case str name =>
    by_cases hc : name = coreSchemaUrn
    · simpa [hc] using collectAttributes_storedGood _ _ _ h
    · simp only [if_neg hc]
      split
      · exact h
      · exact collectAttributes_storedGood _ _ _ h

theorem processSchema_lookup_keep (raw : JsonValue) (acc : AttributeMap)
    (s : JsonValue) (k : String) (v : JsonValue) (hg : storedGood acc)
    (hk : acc.lookup k = some v) : (processSchema raw acc s).lookup k = some v := by
  unfold processSchema
  cases s <;> try exact hk
  case str name =>
    by_cases hc : name = coreSchemaUrn
    · simpa [hc] using collectAttributes_lookup_keep _ _ _ _ _ hg hk
    · simp only [if_neg hc]
      split
      · exact hk
      · exact collectAttributes_lookup_keep _ _ _ _ _ hg hk

theorem foldSchemas_storedGood (raw : JsonValue) (schemas : List JsonValue)
    (acc : AttributeMap) (h : storedGood acc) :
    storedGood (schemas.foldl (processSchema raw) acc) := by
  induction schemas generalizing acc with
  | nil => exact h
  | cons s rest ih => exact ih _ (processSchema_storedGood raw acc s h)

theorem foldSchemas_lookup_keep (raw : JsonValue) (schemas : List JsonValue)
    (acc : AttributeMap) (k : String) (v : JsonValue) (hg : storedGood acc)
    (hk : acc.lookup k = some v) :
    (schemas.foldl (processSchema raw) acc).lookup k = some v := by
  induction schemas generalizing acc with
  | nil => exact hk
  | cons s rest ih =>
      exact ih _ (processSchema_storedGood raw acc s hg)
        (processSchema_lookup_keep raw acc s k v hg hk)

theorem collectStep_ignored_lookup (L : List String) (acc : AttributeMap)
    (e : String × JsonValue) (k : String) (hkL : k ∈ L) :
    (collectStep L acc e).lookup k = acc.lookup k := by
  by_cases he : e.1 = k
  · have h1 : e.1 ∈ L := by rw [he]; exact hkL
    simp [collectStep, h1]
  · rcases collectStep_cases L acc e with hc | ⟨hc, _, _, _⟩
    · rw [hc]
    · rw [hc, setKey_lookup_ne _ _ _ _ (fun h => he h.symm)]

theorem collectAttributes_ignored_lookup (data : List (String × JsonValue))
    (L : List String) (acc : AttributeMap) (k : String) (hkL : k ∈ L) :
    (collectAttributes data L acc).lookup k = acc.lookup k := by
  induction data generalizing acc with
  | nil => rfl
  | cons e rest ih =>
      rw [show collectAttributes (e :: rest) L acc
            = collectAttributes rest L (collectStep L acc e) from rfl,
          ih, collectStep_ignored_lookup L acc e k hkL]

theorem isValidValue_eq_false_of_badShape (v : JsonValue) (h : badShape v) :
    isValidValue v = false := by
  rcases h with ⟨n, rfl⟩ | ⟨b, rfl⟩ | ⟨fields, rfl⟩ | ⟨elems, x, rfl, hx, hxs⟩
  · rfl
  · rfl
  · rfl
  · simp only [isValidValue, List.all_eq_false]
    refine ⟨x, hx, ?_⟩
    cases x <;> simp_all

theorem collectStep_badShape (L : List String) (acc : AttributeMap)
    (name : String) (v : JsonValue) (h : badShape v) :
    collectStep L acc (name, v) = acc := by
  have hv := isValidValue_eq_false_of_badShape v h
  rcases collectStep_cases L acc (name, v) with hc | ⟨_, _, hvalid, _⟩
  · exact hc
  · rw [hvalid] at hv; cases hv

/-- C1: for every event whose kind is neither user.created nor
user.updated, `getAttributesFromScimPayload` returns the empty attribute
map at once, whatever `event.data.raw` holds. -/
theorem unsupported_event_returns_empty (event : DirectorySyncEvent)
    (directoryId : String) (h1 : event.event ≠ "user.created")
    (h2 : event.event ≠ "user.updated") :
    getAttributesFromScimPayload event directoryId = Except.ok [] := by
  unfold getAttributesFromScimPayload
  rw [if_pos ⟨h1, h2⟩]

theorem unsupported_event_returns_empty_witness :
    ("user.deleted" ≠ "user.created") ∧ ("user.deleted" ≠ "user.updated") ∧
    getAttributesFromScimPayload
      ⟨"user.deleted", JsonValue.obj [
        ("schemas", JsonValue.arr [JsonValue.str "segment"]),
        ("segment", JsonValue.obj [("segment", JsonValue.str "SMB")])]⟩ "d"
      = Except.ok [] :=
  ⟨by decide, by decide,
   unsupported_event_returns_empty _ "d" (by decide) (by decide)⟩

/-- C2 as stated is false: on a supported event whose `raw` lacks a usable
`schemas` array, `raw.schemas.forEach(...)` throws a `TypeError`, so an
error does surface to the caller. Concretely, `raw = \x7b\x7d` makes the
extraction end in an error, not a normal return. -/
theorem extraction_throws_counterexample :
    getAttributesFromScimPayload ⟨"user.created", JsonValue.obj []⟩ "d" =
      Except.error "TypeError: raw.schemas.forEach is not a function" := rfl

/-- C2 amended: extraction returns normally whenever `event.data.raw` is
an object whose `schemas` field is an array (as for every SCIM payload);
the map returned is the schema fold (or the empty map for unsupported
event kinds). -/
theorem extraction_total_when_schemas_array (event : DirectorySyncEvent)
    (directoryId : String) (fields : List (String × JsonValue))
    (schemas : List JsonValue)
    (hraw : event.rawData = JsonValue.obj fields)
    (hs : fields.lookup "schemas" = some (JsonValue.arr schemas)) :
    getAttributesFromScimPayload event directoryId = Except.ok [] ∨
    getAttributesFromScimPayload event directoryId =
      Except.ok (schemas.foldl (processSchema event.rawData) []) := by
  unfold getAttributesFromScimPayload
  split
  · exact Or.inl rfl
  · right
    rw [hraw]
    simp [getMember, hs]

theorem extraction_total_when_schemas_array_witness :
    ((⟨"user.created", JsonValue.obj [("schemas", JsonValue.arr [JsonValue.str "x"])]⟩ :
        DirectorySyncEvent).rawData
      = JsonValue.obj [("schemas", JsonValue.arr [JsonValue.str "x"])]) ∧
    ([("schemas", JsonValue.arr [JsonValue.str "x"])].lookup "schemas"
      = some (JsonValue.arr [JsonValue.str "x"])) ∧
    (getAttributesFromScimPayload
        ⟨"user.created", JsonValue.obj [("schemas", JsonValue.arr [JsonValue.str "x"])]⟩ "d"
      = Except.ok [] ∨
     getAttributesFromScimPayload
        ⟨"user.created", JsonValue.obj [("schemas", JsonValue.arr [JsonValue.str "x"])]⟩ "d"
      = Except.ok ([JsonValue.str "x"].foldl
          (processSchema (JsonValue.obj [("schemas", JsonValue.arr [JsonValue.str "x"])])) [])) :=
  ⟨rfl, rfl, extraction_total_when_schemas_array _ "d" _ _ rfl rfl⟩

/-- C3: first write wins. If after processing the namespaces `s1` the map
holds `v` at key `k`, then processing any further namespaces `s2` leaves
that binding unchanged: no later-processed namespace changes a key once
written. -/
theorem first_write_wins (raw : JsonValue) (s1 s2 : List JsonValue)
    (k : String) (v : JsonValue)
    (h : (s1.foldl (processSchema raw) []).lookup k = some v) :
    ((s1 ++ s2).foldl (processSchema raw) []).lookup k = some v := by
  rw [List.foldl_append]
  exact foldSchemas_lookup_keep raw s2 _ k v
    (foldSchemas_storedGood raw s1 [] (fun p hp => absurd hp (List.not_mem_nil p))) h

theorem first_write_wins_witness :
    (([JsonValue.str "a"].foldl (processSchema (JsonValue.obj [
        ("a", JsonValue.obj [("x", JsonValue.str "first")]),
        ("b", JsonValue.obj [("x", JsonValue.str "second")])])) []).lookup "x"
      = some (JsonValue.str "first")) ∧
    (([JsonValue.str "a", JsonValue.str "b"].foldl (processSchema (JsonValue.obj [
        ("a", JsonValue.obj [("x", JsonValue.str "first")]),
        ("b", JsonValue.obj [("x", JsonValue.str "second")])])) []).lookup "x"
      = some (JsonValue.str "first")) :=
  ⟨rfl, first_write_wins _ [JsonValue.str "a"] [JsonValue.str "b"] "x" _ rfl⟩

/-- C4: processing the core namespace never adds (nor changes) a key named
in the fixed core ignore list, whatever value the field carries in the
payload. -/
theorem core_ignore_list_enforced (raw : JsonValue) (acc : AttributeMap)
    (k : String) (hk : k ∈ coreUserAttributesToIgnore) :
    (processSchema raw acc (JsonValue.str coreSchemaUrn)).lookup k = acc.lookup k := by
  have hps : processSchema raw acc (JsonValue.str coreSchemaUrn)
      = collectAttributes (coreNamespaceData raw) coreUserAttributesToIgnore acc := by
    simp [processSchema]
  rw [hps]
  exact collectAttributes_ignored_lookup _ _ _ _ hk

theorem core_ignore_list_enforced_witness :
    ("title" ∈ coreUserAttributesToIgnore) ∧
    (processSchema (JsonValue.obj [
        ("schemas", JsonValue.arr [JsonValue.str coreSchemaUrn]),
        ("title", JsonValue.str "VP"),
        ("nickname", JsonValue.str "Bob")]) [] (JsonValue.str coreSchemaUrn)).lookup "title"
      = ([] : AttributeMap).lookup "title" :=
  ⟨by decide, core_ignore_list_enforced _ [] "title" (by decide)⟩

/-- C5: type filtering. If every value the field set `data` carries under
the key `k` is of a rejected shape (number, boolean, plain object, or an
array with a non-string element), then collecting `data` leaves the map
unchanged at `k`: such a field never appears in the output. -/
theorem type_filtering (data : List (String × JsonValue)) (L : List String)
    (acc : AttributeMap) (k : String)
    (h : ∀ v, (k, v) ∈ data → badShape v) :
    (collectAttributes data L acc).lookup k = acc.lookup k := by
  induction data generalizing acc with
  | nil => rfl
  | cons e rest ih =>
      have hstep : (collectStep L acc e).lookup k = acc.lookup k := by
        by_cases he : e.1 = k
        · have hb : badShape e.2 := h e.2 (by rw [← he]; exact List.mem_cons_self _ _)
          rw [show collectStep L acc e = collectStep L acc (e.1, e.2) from rfl,
              collectStep_badShape L acc e.1 e.2 hb]
        · rcases collectStep_cases L acc e with hc | ⟨hc, _, _, _⟩
          · rw [hc]
          · rw [hc, setKey_lookup_ne _ _ _ _ (fun hh => he hh.symm)]
      rw [show collectAttributes (e :: rest) L acc
            = collectAttributes rest L (collectStep L acc e) from rfl,
          ih _ (fun v hv => h v (List.mem_cons_of_mem _ hv)), hstep]

theorem type_filtering_witness :
    badShape (JsonValue.num 42) ∧
    (collectAttributes [("score", JsonValue.num 42)] [] []).lookup "score"
      = ([] : AttributeMap).lookup "score" :=
  ⟨Or.inl ⟨42, rfl⟩,
   type_filtering [("score", JsonValue.num 42)] [] [] "score" (by
     intro v hv
     simp at hv
     exact hv ▸ Or.inl ⟨42, rfl⟩)⟩

/-- C6: whenever extraction returns a map, every value found in it is a
nonempty string or an array of strings: never null, empty, undefined, an
object, a number, a boolean, or an array with a non-string element. -/
theorem output_values_well_typed (event : DirectorySyncEvent)
    (directoryId : String) (m : AttributeMap) (k : String) (v : JsonValue)
    (hm : getAttributesFromScimPayload event directoryId = Except.ok m)
    (hk : m.lookup k = some v) : goodValue v := by
  unfold getAttributesFromScimPayload at hm
  split at hm
  · cases hm
    simp [List.lookup] at hk
  · split at hm
    · cases hm
    · cases hm
      exact foldSchemas_storedGood _ _ []
        (fun p hp => absurd hp (List.not_mem_nil p)) _ (lookup_mem _ _ _ hk)
    · cases hm

theorem output_values_well_typed_witness :
    (getAttributesFromScimPayload
        ⟨"user.created", JsonValue.obj [
          ("schemas", JsonValue.arr [JsonValue.str "segment"]),
          ("segment", JsonValue.obj [("segment", JsonValue.str "SMB")])]⟩ "d"
      = Except.ok [("segment", JsonValue.str "SMB")]) ∧
    goodValue (JsonValue.str "SMB") :=
  ⟨rfl, output_values_well_typed
    ⟨"user.created", JsonValue.obj [
      ("schemas", JsonValue.arr [JsonValue.str "segment"]),
      ("segment", JsonValue.obj [("segment", JsonValue.str "SMB")])]⟩ "d"
    [("segment", JsonValue.str "SMB")] "segment" (JsonValue.str "SMB") rfl rfl⟩

/-- C7: a schemas entry that is not a string, or a non-core string entry
whose namespace sub-object in `raw` is absent or falsy, leaves the map
unchanged, and removing it from the schema list does not affect how the
remaining entries are processed. -/
theorem malformed_namespace_skipped (raw : JsonValue) (s : JsonValue)
    (hs : (∀ name, s ≠ JsonValue.str name) ∨
      (∃ name, s = JsonValue.str name ∧ name ≠ coreSchemaUrn ∧
        truthy (namespaceLookup raw name) = false)) :
    (∀ acc, processSchema raw acc s = acc) ∧
    (∀ acc pre post, (pre ++ s :: post).foldl (processSchema raw) acc =
      (pre ++ post).foldl (processSchema raw) acc) := by
  have hid : ∀ acc, processSchema raw acc s = acc := by
    intro acc
    rcases hs with h | ⟨name, rfl, hne, hfalsy⟩
    · cases s <;> first | rfl | exact absurd rfl (h _)
    · simp [processSchema, if_neg hne, hfalsy]
  refine ⟨hid, fun acc pre post => ?_⟩
  rw [List.foldl_append, List.foldl_append, List.foldl_cons, hid]

theorem malformed_namespace_skipped_witness :
    (processSchema (JsonValue.obj [("a", JsonValue.obj [("x", JsonValue.str "v")])])
        [] (JsonValue.num 5) = []) ∧
    ([JsonValue.num 5, JsonValue.str "a"].foldl
        (processSchema (JsonValue.obj [("a", JsonValue.obj [("x", JsonValue.str "v")])])) []
      = [JsonValue.str "a"].foldl
        (processSchema (JsonValue.obj [("a", JsonValue.obj [("x", JsonValue.str "v")])])) []) :=
  ⟨(malformed_namespace_skipped _ (JsonValue.num 5)
      (Or.inl (fun _ h => JsonValue.noConfusion h))).1 [],
   (malformed_namespace_skipped _ (JsonValue.num 5)
      (Or.inl (fun _ h => JsonValue.noConfusion h))).2 [] [] [JsonValue.str "a"]⟩

/-- C8: the worked scenario from the spec: a user.created event carrying
the core namespace plus segment and territory namespaces yields exactly
the map with segment SMB and territory NAM. -/
theorem scenario_segment_territory :
    getAttributesFromScimPayload ⟨"user.created", JsonValue.obj [
      ("schemas", JsonValue.arr [JsonValue.str coreSchemaUrn,
        JsonValue.str "segment", JsonValue.str "territory"]),
      ("userName", JsonValue.str "a@b.com"),
      ("segment", JsonValue.obj [("segment", JsonValue.str "SMB")]),
      ("territory", JsonValue.obj [("territory", JsonValue.str "NAM")])]⟩ "dir"
    = Except.ok [("segment", JsonValue.str "SMB"),
                 ("territory", JsonValue.str "NAM")] := rfl

/-- C9: extraction is deterministic: the same event and directoryId always
produce the same result (the embedding is a pure function of its
arguments, matching the source, which reads no mutable state). -/
theorem extract_deterministic (event : DirectorySyncEvent) (directoryId : String) :
    getAttributesFromScimPayload event directoryId
      = getAttributesFromScimPayload event directoryId := rfl

/-- C10: the empty array is truthy and vacuously an array of strings, so a
field valued with the empty array, whose name is neither ignored nor
already bound to a truthy value, is written into the map with the empty
array as its value. -/
theorem empty_array_is_written (L : List String) (acc : AttributeMap)
    (name : String) (h1 : name ∉ L)
    (h2 : truthy (jsLookup acc name) = false) :
    truthy (JsonValue.arr []) = true ∧ isValidValue (JsonValue.arr []) = true ∧
    collectStep L acc (name, JsonValue.arr []) = setKey acc name (JsonValue.arr []) ∧
    (collectStep L acc (name, JsonValue.arr [])).lookup name
      = some (JsonValue.arr []) := by
  have ht : truthy (JsonValue.arr []) = true := rfl
  have hv : isValidValue (JsonValue.arr []) = true := rfl
  refine ⟨ht, hv, ?_, ?_⟩
  · simp [collectStep, h1, h2, ht, hv]
  · simp [collectStep, h1, h2, ht, hv, setKey_lookup_self]

theorem empty_array_is_written_witness :
    ("tags" ∉ coreUserAttributesToIgnore) ∧
    (truthy (jsLookup [] "tags") = false) ∧
    (collectStep coreUserAttributesToIgnore [] ("tags", JsonValue.arr [])).lookup "tags"
      = some (JsonValue.arr []) :=
  ⟨by decide, rfl,
   (empty_array_is_written coreUserAttributesToIgnore [] "tags"
     (by decide) rfl).2.2.2⟩
